import Mathlib

/-!
# goipmi: user-management message codecs (`user.go`) and the subprocess option list

A shallow embedding of the `MarshalBinary` / `UnmarshalBinary` methods of `user.go`.

* A Go `byte` is a `UInt8`; a `[]byte` and a `string` are both a `List Byte`
  (a Go string is a sequence of bytes, and `string(b)` / `copy(dst, s)` keep the bytes).
* `func (r *T) UnmarshalBinary(buf []byte) error` mutates its receiver, so it is
  modelled as a function from the receiver before the call and the buffer to the
  receiver after the call together with the returned error (`none` is Go's `nil`).
* An index or slice expression that is out of range makes the Go run time panic;
  that outcome is `Except.error` of a `Panic`, so a call yields
  `Except Panic (receiver × Option Error)`.
-/

namespace ipmi

/-- A Go `byte`. -/
abbrev Byte := UInt8

/-- The constant `MaxUsernameLen` of `user.go`. -/
def MaxUsernameLen : Nat := 16

/-- Modelled from the spec: the type `CompletionCode` is declared outside `user.go`;
the spec calls it a single byte, and `user.go` converts it with `byte(...)` and
`CompletionCode(buf[0])`. -/
abbrev CompletionCode := Byte

/-- Modelled from the spec: the package-level error sentinels `ErrShortPacket` and
`ErrLongPacket` are declared outside `user.go`; the spec names them the short-packet
and the long-packet condition. -/
inductive Error where
  | ErrShortPacket
  | ErrLongPacket
  deriving DecidableEq, Repr

/-- A run-time panic of the Go program. -/
inductive Panic where
  | indexOutOfRange (index len : Nat)
  | sliceBoundsOutOfRange (low len : Nat)
  deriving DecidableEq, Repr

deriving instance DecidableEq for Except

/-! ## The Go built-ins the codecs use -/

/-- Go `make([]byte, n)`: `n` zero bytes. -/
def make (n : Nat) : List Byte := List.replicate n 0

/-- Go `buf[i]` as a value: panics when `i` is not below `len(buf)`. -/
def index (buf : List Byte) (i : Nat) : Except Panic Byte :=
  match buf[i]? with
  | some b => .ok b
  | none => .error (.indexOutOfRange i buf.length)

/-- Go `buf[low:]`: panics when `low` exceeds `len(buf)`. -/
def sliceFrom (buf : List Byte) (low : Nat) : Except Panic (List Byte) :=
  if low ≤ buf.length then .ok (buf.drop low) else .error (.sliceBoundsOutOfRange low buf.length)

/-- Go `copy(dst, src)`, given as the contents of `dst` afterwards: the first
`min(len(dst), len(src))` bytes of `src`, then the rest of `dst` untouched. -/
def copy (dst src : List Byte) : List Byte :=
  src.take dst.length ++ dst.drop src.length

/-- Go `copy(buf[low:], src)` with `low ≤ len(buf)`, given as the contents of `buf`
afterwards (the slice shares the memory of `buf`). -/
def copyAt (buf : List Byte) (low : Nat) (src : List Byte) : List Byte :=
  buf.take low ++ copy (buf.drop low) src

/-- Go `strings.Trim(s, cutset)` for a cutset of ASCII bytes: the bytes of the cutset
are removed from the end (`trimRight`) and then from the start (`trimLeft`) of `s`. -/
def stringsTrim (s cutset : List Byte) : List Byte :=
  (s.rdropWhile (fun b => cutset.contains b)).dropWhile (fun b => cutset.contains b)

/-! ## The message types of `user.go` -/

structure GetUserNameResponse where
  CompletionCode : CompletionCode
  Username : List Byte
  deriving DecidableEq, Repr

structure SetUserNameRequest where
  UserID : Byte
  Username : List Byte
  deriving DecidableEq, Repr

structure SetUserPassRequest where
  UserID : Byte
  Pass : List Byte
  deriving DecidableEq, Repr

structure EnableUserRequest where
  UserID : Byte
  deriving DecidableEq, Repr

/-! ## The codecs, one definition per method of `user.go` -/

/-- `func (r *SetUserPassRequest) MarshalBinary() ([]byte, error)`. -/
def SetUserPassRequest.MarshalBinary (r : SetUserPassRequest) : List Byte × Option Error :=
  let buf := make 18
  let buf := buf.set 0 r.UserID
  let buf := buf.set 1 0x02
  let buf := copyAt buf 2 r.Pass
  (buf, none)

/-- `func (r *SetUserPassRequest) UnmarshalBinary(buf []byte) error`. -/
def SetUserPassRequest.UnmarshalBinary (r : SetUserPassRequest) (buf : List Byte) :
    Except Panic (SetUserPassRequest × Option Error) :=
  if buf.length < 18 then
    .ok (r, some .ErrShortPacket)
  else if buf.length > 18 then
    .ok (r, some .ErrLongPacket)
  else do
    let b0 ← index buf 0
    let r := { r with UserID := b0 }
    let rest ← sliceFrom buf 2
    let r := { r with Pass := rest }
    .ok (r, none)

/-- `func (r *EnableUserRequest) MarshalBinary() ([]byte, error)`. -/
def EnableUserRequest.MarshalBinary (r : EnableUserRequest) : List Byte × Option Error :=
  let buf := make 2
  let buf := buf.set 0 r.UserID
  let buf := buf.set 1 0x01
  (buf, none)

/-- `func (r *EnableUserRequest) UnmarshalBinary(buf []byte) error`. -/
def EnableUserRequest.UnmarshalBinary (r : EnableUserRequest) (buf : List Byte) :
    Except Panic (EnableUserRequest × Option Error) :=
  if buf.length < 1 then
    .ok (r, some .ErrShortPacket)
  else if buf.length > 1 then
    .ok (r, some .ErrLongPacket)
  else do
    let b0 ← index buf 0
    let r := { r with UserID := b0 }
    .ok (r, none)

/-- `func (r *GetUserNameResponse) MarshalBinary() ([]byte, error)`. -/
def GetUserNameResponse.MarshalBinary (r : GetUserNameResponse) : List Byte × Option Error :=
  let buf := make (1 + MaxUsernameLen)
  let buf := buf.set 0 r.CompletionCode
  let buf := copyAt buf 1 r.Username
  (buf, none)

/-- `func (r *GetUserNameResponse) UnmarshalBinary(buf []byte) error`. -/
def GetUserNameResponse.UnmarshalBinary (r : GetUserNameResponse) (buf : List Byte) :
    Except Panic (GetUserNameResponse × Option Error) :=
  if buf.length < 1 + MaxUsernameLen then
    .ok (r, some .ErrShortPacket)
  else do
    let b0 ← index buf 0
    let r := { r with CompletionCode := b0 }
    let rest ← sliceFrom buf 1
    let r := { r with Username := stringsTrim rest [0] }
    .ok (r, none)

/-- `func (r *SetUserNameRequest) MarshalBinary() ([]byte, error)`. -/
def SetUserNameRequest.MarshalBinary (r : SetUserNameRequest) : List Byte × Option Error :=
  let buf := make (1 + MaxUsernameLen)
  let buf := buf.set 0 r.UserID
  let buf := copyAt buf 1 r.Username
  (buf, none)

/-- `func (r *SetUserNameRequest) UnmarshalBinary(buf []byte) error`. -/
def SetUserNameRequest.UnmarshalBinary (r : SetUserNameRequest) (buf : List Byte) :
    Except Panic (SetUserNameRequest × Option Error) :=
  if buf.length > 1 + MaxUsernameLen then
    .ok (r, some .ErrLongPacket)
  else do
    let b0 ← index buf 0
    let r := { r with UserID := b0 }
    let rest ← sliceFrom buf 1
    let r := { r with Username := rest }
    .ok (r, none)

/-! ## The subprocess option list -/

/-- Modelled from the spec: the `Connection` descriptor is declared outside the
given sources; the fields are those the test `TestOptions` sets. -/
structure Connection where
  Path : String
  Hostname : String
  Port : Int
  Username : String
  Password : String
  Interface : String
  deriving DecidableEq, Repr

/-- Modelled from the spec: the method `options()` of the subprocess transport is not
in the given sources. Section 4.5 and 6 of the spec: hostname and username are always
emitted, an unset interface is replaced by `lanplus`, the flag `-E` is always emitted,
and `-p <port>` is appended only for a nonzero port. -/
def options (c : Connection) : List String :=
  let intf := if c.Interface = "" then "lanplus" else c.Interface
  let opts := ["-H", c.Hostname, "-U", c.Username, "-I", intf, "-E"]
  if c.Port ≠ 0 then opts ++ ["-p", toString c.Port] else opts

/-- The ASCII bytes of `test`, the user name of `TestTool`. -/
def testName : List Byte := [0x74, 0x65, 0x73, 0x74]

/-- The error a call returned (`none` is `nil`), or the panic that ended it. -/
def returnedError {ρ : Type} (x : Except Panic (ρ × Option Error)) : Except Panic (Option Error) :=
  x.map Prod.snd

/-! ## Shape of the encoded messages -/

theorem copy_zeros (n : Nat) (src : List Byte) :
    copy (List.replicate n 0) src = src.take n ++ List.replicate (n - src.length) 0 := by
  simp [copy]

theorem copyAt_one_zeros (n : Nat) (b : Byte) (src : List Byte) :
    copyAt ((List.replicate (n + 1) 0).set 0 b) 1 src =
      b :: (src.take n ++ List.replicate (n - src.length) 0) := by
  simp [copyAt, copy_zeros, List.replicate_succ]

theorem copyAt_two_zeros (n : Nat) (a b : Byte) (src : List Byte) :
    copyAt (((List.replicate (n + 2) 0).set 0 a).set 1 b) 2 src =
      a :: b :: (src.take n ++ List.replicate (n - src.length) 0) := by
  simp [copyAt, copy_zeros, List.replicate_succ]

theorem GetUserNameResponse_MarshalBinary_eq (r : GetUserNameResponse) :
    r.MarshalBinary =
      (r.CompletionCode :: (r.Username.take 16 ++ List.replicate (16 - r.Username.length) 0),
        none) := by
  show (copyAt ((List.replicate (16 + 1) 0).set 0 r.CompletionCode) 1 r.Username, none) = _
  rw [copyAt_one_zeros]

theorem SetUserNameRequest_MarshalBinary_eq (r : SetUserNameRequest) :
    r.MarshalBinary =
      (r.UserID :: (r.Username.take 16 ++ List.replicate (16 - r.Username.length) 0),
        none) := by
  show (copyAt ((List.replicate (16 + 1) 0).set 0 r.UserID) 1 r.Username, none) = _
  rw [copyAt_one_zeros]

theorem SetUserPassRequest_MarshalBinary_eq (r : SetUserPassRequest) :
    r.MarshalBinary =
      (r.UserID :: 0x02 :: (r.Pass.take 16 ++ List.replicate (16 - r.Pass.length) 0),
        none) := by
  show (copyAt (((List.replicate (16 + 2) 0).set 0 r.UserID).set 1 0x02) 2 r.Pass, none) = _
  rw [copyAt_two_zeros]

theorem EnableUserRequest_MarshalBinary_eq (r : EnableUserRequest) :
    r.MarshalBinary = ([r.UserID, 0x01], none) := by
  simp [EnableUserRequest.MarshalBinary, make, List.replicate_succ]

/-! ## What the decoders do on a buffer of a given shape -/

theorem GetUserNameResponse_UnmarshalBinary_cons (r0 : GetUserNameResponse) (c : Byte)
    (rest : List Byte) (h : 16 ≤ rest.length) :
    GetUserNameResponse.UnmarshalBinary r0 (c :: rest) =
      .ok (⟨c, stringsTrim rest [0]⟩, none) := by
  have h1 : ¬ (rest.length + 1 < 1 + 16) := by omega
  simp [GetUserNameResponse.UnmarshalBinary, MaxUsernameLen, h1, index, sliceFrom, bind,
    Except.bind]

theorem SetUserNameRequest_UnmarshalBinary_cons (r0 : SetUserNameRequest) (id : Byte)
    (rest : List Byte) (h : rest.length ≤ 16) :
    SetUserNameRequest.UnmarshalBinary r0 (id :: rest) = .ok (⟨id, rest⟩, none) := by
  have h1 : ¬ (rest.length + 1 > 1 + 16) := by omega
  simp [SetUserNameRequest.UnmarshalBinary, MaxUsernameLen, h1, index, sliceFrom, bind,
    Except.bind]

theorem SetUserPassRequest_UnmarshalBinary_cons (r0 : SetUserPassRequest) (id op : Byte)
    (pass : List Byte) (h : pass.length = 16) :
    SetUserPassRequest.UnmarshalBinary r0 (id :: op :: pass) = .ok (⟨id, pass⟩, none) := by
  simp [SetUserPassRequest.UnmarshalBinary, h, index, sliceFrom, bind, Except.bind]

/-! ## Trimming the zero padding -/

theorem rdropWhile_append_zeros (u : List Byte) (k : Nat) :
    (u ++ List.replicate k 0).rdropWhile (fun b => [(0 : Byte)].contains b) =
      u.rdropWhile (fun b => [(0 : Byte)].contains b) := by
  induction k with
  | zero => simp
  | succ k ih =>
    rw [List.replicate_succ', ← List.append_assoc, List.rdropWhile_concat_pos _ _ _ (by simp), ih]

theorem stringsTrim_padded (u : List Byte) (k : Nat) (hfirst : u.head? ≠ some 0)
    (hlast : u.getLast? ≠ some 0) :
    stringsTrim (u ++ List.replicate k 0) [0] = u := by
  unfold stringsTrim
  rw [rdropWhile_append_zeros]
  have h1 : u.rdropWhile (fun b => [(0 : Byte)].contains b) = u := by
    rw [List.rdropWhile_eq_self_iff]
    intro hne hc
    apply hlast
    rw [List.getLast?_eq_getLast _ hne]
    simpa using hc
  rw [h1, List.dropWhile_eq_self_iff]
  intro hpos hc
  apply hfirst
  cases u with
  | nil => simp at hpos
  | cons a t => simpa using hc

/-! ## Round trips through the codecs -/

/-- C1: for every completion code `c` and every user name `u` of at most 16 bytes that
neither starts nor ends with a zero byte (the empty name included), encoding the
`GetUserNameResponse` with fields `c` and `u` returns a nil error, and decoding the
encoded bytes into any receiver returns a nil error and leaves the receiver holding
exactly `c` and `u`. -/
theorem GetUserNameResponse_roundtrip (r0 : GetUserNameResponse) (c : CompletionCode)
    (u : List Byte) (hlen : u.length ≤ MaxUsernameLen) (hfirst : u.head? ≠ some 0)
    (hlast : u.getLast? ≠ some 0) :
    (GetUserNameResponse.MarshalBinary ⟨c, u⟩).2 = none ∧
    GetUserNameResponse.UnmarshalBinary r0 (GetUserNameResponse.MarshalBinary ⟨c, u⟩).1 =
      .ok (⟨c, u⟩, none) := by
  have hl : u.length ≤ 16 := hlen
  rw [GetUserNameResponse_MarshalBinary_eq]
  refine ⟨rfl, ?_⟩
  rw [GetUserNameResponse_UnmarshalBinary_cons _ _ _ (by simp; omega)]
  simp only [List.take_of_length_le hl]
  rw [stringsTrim_padded u _ hfirst hlast]

/-- C1 at the user name `test` of `TestTool`, with completion code 0 and a receiver that
held other values before. -/
theorem GetUserNameResponse_roundtrip_witness :
    (GetUserNameResponse.MarshalBinary ⟨0, testName⟩).2 = none ∧
    GetUserNameResponse.UnmarshalBinary ⟨0xC1, [0x78]⟩
        (GetUserNameResponse.MarshalBinary ⟨0, testName⟩).1 =
      .ok (⟨0, testName⟩, none) :=
  GetUserNameResponse_roundtrip ⟨0xC1, [0x78]⟩ 0 testName (by decide) (by decide) (by decide)

/-- C2: for every user id, completion code `c` and user name `u` of at most 16 bytes that
neither starts nor ends with a zero byte: encoding the `SetUserNameRequest` succeeds,
decoding those bytes as a `SetUserNameRequest` succeeds with some value `s`, encoding the
`GetUserNameResponse` with `c` and the user name of `s` succeeds, and decoding that as a
`GetUserNameResponse` succeeds with user name exactly `u`. -/
theorem set_then_get_username (s0 : SetUserNameRequest) (g0 : GetUserNameResponse)
    (id : Byte) (c : CompletionCode) (u : List Byte) (hlen : u.length ≤ MaxUsernameLen)
    (hfirst : u.head? ≠ some 0) (hlast : u.getLast? ≠ some 0) :
    ∃ s : SetUserNameRequest,
      (SetUserNameRequest.MarshalBinary ⟨id, u⟩).2 = none ∧
      SetUserNameRequest.UnmarshalBinary s0 (SetUserNameRequest.MarshalBinary ⟨id, u⟩).1 =
        .ok (s, none) ∧
      (GetUserNameResponse.MarshalBinary ⟨c, s.Username⟩).2 = none ∧
      GetUserNameResponse.UnmarshalBinary g0
          (GetUserNameResponse.MarshalBinary ⟨c, s.Username⟩).1 =
        .ok (⟨c, u⟩, none) := by
  have hl : u.length ≤ 16 := hlen
  refine ⟨⟨id, u ++ List.replicate (16 - u.length) 0⟩, ?_, ?_, ?_, ?_⟩
  · rfl
  · rw [SetUserNameRequest_MarshalBinary_eq]
    simp only [List.take_of_length_le hl]
    rw [SetUserNameRequest_UnmarshalBinary_cons _ _ _ (by simp; omega)]
  · rfl
  · rw [GetUserNameResponse_MarshalBinary_eq]
    have hfull : (u ++ List.replicate (16 - u.length) (0 : Byte)).length = 16 := by
      simp; omega
    simp only [hfull, Nat.sub_self, List.replicate_zero, List.append_nil,
      List.take_of_length_le (Nat.le_of_eq hfull)]
    rw [GetUserNameResponse_UnmarshalBinary_cons _ _ _ (by simp; omega)]
    rw [stringsTrim_padded u _ hfirst hlast]

/-- C2 at the values of `TestTool`: user id 1 and user name `test`. -/
theorem set_then_get_username_witness :
    ∃ s : SetUserNameRequest,
      (SetUserNameRequest.MarshalBinary ⟨0x01, testName⟩).2 = none ∧
      SetUserNameRequest.UnmarshalBinary ⟨0, []⟩
          (SetUserNameRequest.MarshalBinary ⟨0x01, testName⟩).1 = .ok (s, none) ∧
      (GetUserNameResponse.MarshalBinary ⟨0, s.Username⟩).2 = none ∧
      GetUserNameResponse.UnmarshalBinary ⟨0, []⟩
          (GetUserNameResponse.MarshalBinary ⟨0, s.Username⟩).1 =
        .ok (⟨0, testName⟩, none) :=
  set_then_get_username ⟨0, []⟩ ⟨0, []⟩ 0x01 0 testName (by decide) (by decide) (by decide)

/-- C3, the code at the values of `TestTool` (user id 1, user name `test`): decoding the
encoded `SetUserNameRequest` returns a nil error, but the decoded user name is `test`
followed by the 12 zero bytes of padding, which is not the user name that was encoded. -/
theorem SetUserNameRequest_roundtrip_keeps_padding :
    SetUserNameRequest.UnmarshalBinary ⟨0, []⟩
        (SetUserNameRequest.MarshalBinary ⟨0x01, testName⟩).1 =
      .ok (⟨0x01, testName ++ List.replicate 12 0⟩, none) ∧
    testName ++ List.replicate 12 0 ≠ testName := by
  decide

/-- C4, the code at every user id: the two bytes `EnableUserRequest.MarshalBinary`
produces are rejected by `EnableUserRequest.UnmarshalBinary` with `ErrLongPacket`, and
the receiver keeps the value it had. -/
theorem EnableUserRequest_roundtrip_long_packet (r0 : EnableUserRequest) (id : Byte) :
    (EnableUserRequest.MarshalBinary ⟨id⟩).1 = [id, 0x01] ∧
    EnableUserRequest.UnmarshalBinary r0 (EnableUserRequest.MarshalBinary ⟨id⟩).1 =
      .ok (r0, some .ErrLongPacket) := by
  rw [EnableUserRequest_MarshalBinary_eq]
  simp [EnableUserRequest.UnmarshalBinary]

/-- C5 as stated fails at the one-byte password `p` (0x70): the round trip returns the
password followed by 15 zero bytes, which differs from the password that was encoded. -/
theorem SetUserPassRequest_roundtrip_counterexample :
    SetUserPassRequest.UnmarshalBinary ⟨0, []⟩
        (SetUserPassRequest.MarshalBinary ⟨0x01, [0x70]⟩).1 =
      .ok (⟨0x01, 0x70 :: List.replicate 15 0⟩, none) ∧
    (0x70 :: List.replicate 15 0 : List Byte) ≠ [0x70] ∧
    (0x70 :: List.replicate 15 0 : List Byte).length ≠ [(0x70 : Byte)].length := by
  decide

/-- C5 amended: for every user id and every password of at most 16 bytes, encoding
returns a nil error and decoding the encoded bytes returns a nil error with the same user
id and a password of exactly 16 bytes: the original password followed by zero bytes.
The decoded password equals the original one exactly when the original has 16 bytes. -/
theorem SetUserPassRequest_roundtrip_padded (r0 : SetUserPassRequest) (id : Byte)
    (pass : List Byte) (hlen : pass.length ≤ 16) :
    (SetUserPassRequest.MarshalBinary ⟨id, pass⟩).2 = none ∧
    SetUserPassRequest.UnmarshalBinary r0 (SetUserPassRequest.MarshalBinary ⟨id, pass⟩).1 =
      .ok (⟨id, pass ++ List.replicate (16 - pass.length) 0⟩, none) ∧
    (pass ++ List.replicate (16 - pass.length) (0 : Byte)).length = 16 ∧
    (pass ++ List.replicate (16 - pass.length) (0 : Byte) = pass ↔ pass.length = 16) := by
  have hfull : (pass ++ List.replicate (16 - pass.length) (0 : Byte)).length = 16 := by
    simp; omega
  refine ⟨rfl, ?_, hfull, ?_⟩
  · rw [SetUserPassRequest_MarshalBinary_eq]
    simp only [List.take_of_length_le hlen]
    rw [SetUserPassRequest_UnmarshalBinary_cons _ _ _ _ hfull]
  · constructor
    · intro h
      rw [h] at hfull
      exact hfull
    · intro h
      simp [h]

/-- C5 amended, at the one-byte password `p` and at a password of 16 bytes. -/
theorem SetUserPassRequest_roundtrip_padded_witness :
    ((SetUserPassRequest.MarshalBinary ⟨0x01, [0x70]⟩).2 = none ∧
      SetUserPassRequest.UnmarshalBinary ⟨0, []⟩
          (SetUserPassRequest.MarshalBinary ⟨0x01, [0x70]⟩).1 =
        .ok (⟨0x01, [0x70] ++ List.replicate (16 - [(0x70 : Byte)].length) 0⟩, none) ∧
      ([(0x70 : Byte)] ++ List.replicate (16 - [(0x70 : Byte)].length) (0 : Byte)).length = 16 ∧
      ([(0x70 : Byte)] ++ List.replicate (16 - [(0x70 : Byte)].length) (0 : Byte) = [0x70] ↔
        [(0x70 : Byte)].length = 16)) ∧
    SetUserPassRequest.UnmarshalBinary ⟨0, []⟩
        (SetUserPassRequest.MarshalBinary ⟨0x01, List.replicate 16 0x70⟩).1 =
      .ok (⟨0x01, List.replicate 16 0x70⟩, none) :=
  ⟨SetUserPassRequest_roundtrip_padded ⟨0, []⟩ 0x01 [0x70] (by decide), by decide⟩

/-! ## The subprocess option list -/

/-- C6: for every connection, `options` is exactly `-H`, the host name, `-U`, the user
name, `-I`, the interface (`lanplus` when the interface is empty), `-E`, followed by `-p`
and the decimal port if and only if the port is nonzero; the list has 9 entries for a
nonzero port and 7 otherwise, and it does not depend on the password or on the utility
path. -/
theorem options_exact (c : Connection) :
    options c =
      ["-H", c.Hostname, "-U", c.Username, "-I",
        (if c.Interface = "" then "lanplus" else c.Interface), "-E"] ++
      (if c.Port ≠ 0 then ["-p", toString c.Port] else []) ∧
    ((options c).length = 9 ↔ c.Port ≠ 0) ∧
    ((options c).length = 7 ↔ c.Port = 0) ∧
    ∀ pw path : String, options { c with Password := pw, Path := path } = options c := by
  by_cases hp : c.Port = 0 <;> simp [options, hp]

/-- C6 at the three connections of `TestOptions`. -/
theorem options_exact_witness :
    options ⟨"", "h", 0, "u", "p", ""⟩ = ["-H", "h", "-U", "u", "-I", "lanplus", "-E"] ∧
    options ⟨"", "h", 1623, "u", "p", ""⟩ =
      ["-H", "h", "-U", "u", "-I", "lanplus", "-E", "-p", "1623"] ∧
    options ⟨"", "h", 0, "u", "p", "lan"⟩ = ["-H", "h", "-U", "u", "-I", "lan", "-E"] :=
  ⟨(options_exact ⟨"", "h", 0, "u", "p", ""⟩).1.trans (by decide),
    (options_exact ⟨"", "h", 1623, "u", "p", ""⟩).1.trans (by decide),
    (options_exact ⟨"", "h", 0, "u", "p", "lan"⟩).1.trans (by decide)⟩

/-! ## Length checks of the decoders -/

/-- C7, the code at every one-byte and every two-byte buffer: `EnableUserRequest`
decoding accepts the one-byte buffer (nil error, user id set to its byte) and rejects
the two-byte buffer with `ErrLongPacket`, leaving the receiver as it was. -/
theorem EnableUserRequest_decode_expects_one_byte (r0 : EnableUserRequest) (b0 b1 : Byte) :
    EnableUserRequest.UnmarshalBinary r0 [b0] = .ok (⟨b0⟩, none) ∧
    EnableUserRequest.UnmarshalBinary r0 [b0, b1] = .ok (r0, some .ErrLongPacket) := by
  simp [EnableUserRequest.UnmarshalBinary, index, bind, Except.bind]

/-- C8, the code at the empty buffer and at a buffer of 16 bytes: `SetUserNameRequest`
decoding panics on the empty buffer (index 0 out of range) and accepts the 16-byte
buffer with a nil error, taking a user name of 15 bytes from it; neither returns
`ErrShortPacket`. -/
theorem SetUserNameRequest_decode_short_buffers (r0 : SetUserNameRequest) :
    SetUserNameRequest.UnmarshalBinary r0 [] = .error (.indexOutOfRange 0 0) ∧
    SetUserNameRequest.UnmarshalBinary r0 (0x01 :: List.replicate 15 0x41) =
      .ok (⟨0x01, List.replicate 15 0x41⟩, none) := by
  constructor
  · simp [SetUserNameRequest.UnmarshalBinary, MaxUsernameLen, index, bind, Except.bind]
  · exact SetUserNameRequest_UnmarshalBinary_cons r0 _ _ (by simp)

/-- C9, the code at a buffer of 18 bytes (status 0 and 17 bytes `A`):
`GetUserNameResponse` decoding returns a nil error, not `ErrLongPacket`, and the decoded
user name has 17 bytes. -/
theorem GetUserNameResponse_decode_accepts_long (r0 : GetUserNameResponse) :
    GetUserNameResponse.UnmarshalBinary r0 (0x00 :: List.replicate 17 0x41) =
      .ok (⟨0x00, List.replicate 17 0x41⟩, none) ∧
    (List.replicate 17 (0x41 : Byte)).length = 17 := by
  constructor
  · rw [GetUserNameResponse_UnmarshalBinary_cons r0 _ _ (by simp)]
    have : stringsTrim (List.replicate 17 (0x41 : Byte)) [0] = List.replicate 17 0x41 := by
      decide
    rw [this]
  · simp

/-- C10: for every receiver and every buffer `b`, `SetUserPassRequest` decoding never
panics; it returns `ErrShortPacket` if and only if `b` has fewer than 18 bytes and
`ErrLongPacket` if and only if `b` has more than 18 bytes; when `b` has exactly 18 bytes
it returns a nil error, the user id is `b[0]` and the password is the 16 bytes from
offset 2 to offset 17 of `b`, each in its place. An error leaves the receiver as it was. -/
theorem SetUserPassRequest_decode_exact_length (r0 : SetUserPassRequest) (b : List Byte) :
    (returnedError (SetUserPassRequest.UnmarshalBinary r0 b) = .ok (some .ErrShortPacket) ↔
      b.length < 18) ∧
    (returnedError (SetUserPassRequest.UnmarshalBinary r0 b) = .ok (some .ErrLongPacket) ↔
      b.length > 18) ∧
    (b.length < 18 → SetUserPassRequest.UnmarshalBinary r0 b = .ok (r0, some .ErrShortPacket)) ∧
    (b.length > 18 → SetUserPassRequest.UnmarshalBinary r0 b = .ok (r0, some .ErrLongPacket)) ∧
    (b.length = 18 →
      ∃ pass : List Byte,
        SetUserPassRequest.UnmarshalBinary r0 b = .ok (⟨b.headD 0, pass⟩, none) ∧
        b[0]? = some (b.headD 0) ∧
        pass.length = 16 ∧ pass = b.drop 2 ∧ ∀ i, i < 16 → pass[i]? = b[i + 2]?) := by
  rcases Nat.lt_trichotomy b.length 18 with hlt | heq | hgt
  · have h1 : ¬ (b.length > 18) := by omega
    have h2 : b.length ≠ 18 := by omega
    simp [returnedError, SetUserPassRequest.UnmarshalBinary, hlt, h1, h2, Except.map]
  · match b, heq with
    | id :: op :: pass, heq =>
      have hp : pass.length = 16 := by simpa using heq
      rw [SetUserPassRequest_UnmarshalBinary_cons r0 id op pass hp]
      simp [returnedError, Except.map, hp]
  · have h1 : ¬ (b.length < 18) := by omega
    have h2 : b.length ≠ 18 := by omega
    simp [returnedError, SetUserPassRequest.UnmarshalBinary, hgt, h1, h2, Except.map]

/-- C10 at a 17-byte, an 18-byte and a 19-byte buffer. -/
theorem SetUserPassRequest_decode_exact_length_witness :
    SetUserPassRequest.UnmarshalBinary ⟨0, []⟩ (List.replicate 17 0x41) =
      .ok (⟨0, []⟩, some .ErrShortPacket) ∧
    SetUserPassRequest.UnmarshalBinary ⟨0, []⟩ (List.replicate 19 0x41) =
      .ok (⟨0, []⟩, some .ErrLongPacket) ∧
    SetUserPassRequest.UnmarshalBinary ⟨0, []⟩ (0x03 :: 0x02 :: List.replicate 16 0x00) =
      .ok (⟨0x03, List.replicate 16 0x00⟩, none) :=
  ⟨(SetUserPassRequest_decode_exact_length ⟨0, []⟩ (List.replicate 17 0x41)).2.2.1 (by decide),
    (SetUserPassRequest_decode_exact_length ⟨0, []⟩ (List.replicate 19 0x41)).2.2.2.1
      (by decide),
    by decide⟩

/-! ## What `strings.Trim` with the cutset of the zero byte removes -/

theorem dropWhile_zero_split (l : List Byte) :
    ∃ i : Nat, l = List.replicate i 0 ++ l.dropWhile (fun b => [(0 : Byte)].contains b) := by
  refine ⟨(l.takeWhile (fun b => [(0 : Byte)].contains b)).length, ?_⟩
  have h : l.takeWhile (fun b => [(0 : Byte)].contains b) =
      List.replicate (l.takeWhile (fun b => [(0 : Byte)].contains b)).length 0 := by
    rw [List.eq_replicate_iff]
    refine ⟨rfl, ?_⟩
    intro b hb
    simpa using List.mem_takeWhile_imp hb
  rw [← h, List.takeWhile_append_dropWhile]

theorem rdropWhile_zero_split (l : List Byte) :
    ∃ j : Nat, l = l.rdropWhile (fun b => [(0 : Byte)].contains b) ++ List.replicate j 0 := by
  obtain ⟨j, hj⟩ := dropWhile_zero_split l.reverse
  refine ⟨j, ?_⟩
  have h := congrArg List.reverse hj
  simpa [List.rdropWhile] using h

theorem stringsTrim_zero_spec (s : List Byte) :
    ∃ i j : Nat, s = List.replicate i 0 ++ stringsTrim s [0] ++ List.replicate j 0 ∧
      (stringsTrim s [0]).head? ≠ some 0 ∧ (stringsTrim s [0]).getLast? ≠ some 0 := by
  obtain ⟨j, hj⟩ := rdropWhile_zero_split s
  obtain ⟨i, hi⟩ := dropWhile_zero_split (s.rdropWhile (fun b => [(0 : Byte)].contains b))
  refine ⟨i, j, ?_, ?_, ?_⟩
  · unfold stringsTrim
    rw [← hi, ← hj]
  · unfold stringsTrim
    intro h
    have := List.head?_dropWhile_not (fun b => [(0 : Byte)].contains b)
      (s.rdropWhile (fun b => [(0 : Byte)].contains b))
    rw [h] at this
    simp at this
  · unfold stringsTrim
    intro h
    have hne : (s.rdropWhile (fun b => [(0 : Byte)].contains b)).dropWhile
        (fun b => [(0 : Byte)].contains b) ≠ [] := by
      intro h0
      rw [h0] at h
      simp at h
    have hsuf := List.dropWhile_suffix (fun b => [(0 : Byte)].contains b)
      (l := s.rdropWhile (fun b => [(0 : Byte)].contains b))
    have hne' : s.rdropWhile (fun b => [(0 : Byte)].contains b) ≠ [] := by
      intro h0
      rw [h0] at hne
      simp at hne
    have hlast := List.rdropWhile_last_not (fun b => [(0 : Byte)].contains b) s hne'
    rw [← hsuf.getLast hne] at hlast
    rw [List.getLast?_eq_getLast _ hne] at h
    simp only [Option.some.injEq] at h
    rw [h] at hlast
    simp at hlast
/-! ## Short packets, trimming and over-long names -/

/-- C11: for every receiver and every buffer `b` of fewer than 17 bytes (the empty
buffer included, and whatever its first byte is), `GetUserNameResponse` decoding does not
panic, returns `ErrShortPacket` and leaves the receiver as it was; the outcome is the
same for every other buffer of fewer than 17 bytes, so it depends on no byte of `b`. -/
theorem GetUserNameResponse_decode_short_first (r0 : GetUserNameResponse) (b : List Byte)
    (hlen : b.length < 17) :
    GetUserNameResponse.UnmarshalBinary r0 b = .ok (r0, some .ErrShortPacket) ∧
    returnedError (GetUserNameResponse.UnmarshalBinary r0 b) = .ok (some .ErrShortPacket) ∧
    ∀ b2 : List Byte, b2.length < 17 →
      GetUserNameResponse.UnmarshalBinary r0 b2 = GetUserNameResponse.UnmarshalBinary r0 b := by
  have h : ∀ x : List Byte, x.length < 17 →
      GetUserNameResponse.UnmarshalBinary r0 x = .ok (r0, some .ErrShortPacket) := by
    intro x hx
    have hx1 : x.length < 1 + MaxUsernameLen := hx
    simp [GetUserNameResponse.UnmarshalBinary, hx1]
  refine ⟨h b hlen, ?_, ?_⟩
  · rw [h b hlen]
    rfl
  · intro b2 h2
    rw [h b hlen, h b2 h2]

/-- C11 at the empty buffer and at a 16-byte buffer whose first byte is the nonzero
status 0xC1. -/
theorem GetUserNameResponse_decode_short_first_witness :
    GetUserNameResponse.UnmarshalBinary ⟨0x07, testName⟩ [] =
      .ok (⟨0x07, testName⟩, some .ErrShortPacket) ∧
    GetUserNameResponse.UnmarshalBinary ⟨0x07, testName⟩ (0xC1 :: List.replicate 15 0x41) =
      .ok (⟨0x07, testName⟩, some .ErrShortPacket) :=
  ⟨(GetUserNameResponse_decode_short_first ⟨0x07, testName⟩ [] (by decide)).1,
    (GetUserNameResponse_decode_short_first ⟨0x07, testName⟩ (0xC1 :: List.replicate 15 0x41)
      (by decide)).1⟩

/-- C12 as stated fails at the 17-byte buffer `00 00 41 00 .. 00`: removing only the
trailing zero bytes of the field `00 41 00 .. 00` leaves the two bytes `00 41`, but the
decoded user name is the single byte `41`; the leading zero byte is removed as well. -/
theorem GetUserNameResponse_decode_trailing_only_counterexample :
    ((0x00 :: 0x41 :: List.replicate 14 0x00 : List Byte).rdropWhile (fun x => x == 0)) =
      [0x00, 0x41] ∧
    GetUserNameResponse.UnmarshalBinary ⟨0, []⟩ (0x00 :: 0x00 :: 0x41 :: List.replicate 14 0x00) =
      .ok (⟨0x00, [0x41]⟩, none) ∧
    ([0x41] : List Byte) ≠ [0x00, 0x41] := by
  decide

/-- C12 amended: for every receiver and every 17-byte buffer `b`, `GetUserNameResponse`
decoding returns a nil error with the completion code `b[0]` and the user name obtained
from the 16-byte field by removing its leading and its trailing zero bytes: the field
is `i` zero bytes, the user name, `j` zero bytes, and the user name neither starts nor
ends with a zero byte (zero bytes inside it stay in place). -/
theorem GetUserNameResponse_decode_trims_both_ends (r0 : GetUserNameResponse) (b : List Byte)
    (hlen : b.length = 17) :
    ∃ (c : Byte) (name : List Byte) (i j : Nat),
      GetUserNameResponse.UnmarshalBinary r0 b = .ok (⟨c, name⟩, none) ∧
      b = c :: (List.replicate i 0 ++ name ++ List.replicate j 0) ∧
      name.head? ≠ some 0 ∧ name.getLast? ≠ some 0 := by
  match b, hlen with
  | c :: field, hlen =>
    have hf : field.length = 16 := by simpa using hlen
    obtain ⟨i, j, hsplit, hfirst, hlast⟩ := stringsTrim_zero_spec field
    refine ⟨c, stringsTrim field [0], i, j, ?_, ?_, hfirst, hlast⟩
    · exact GetUserNameResponse_UnmarshalBinary_cons r0 c field (by omega)
    · rw [← hsplit]

/-- C12 amended, at the buffer `00 00 41 00 42 00 .. 00`: the decoded user name is
`41 00 42`, the zero byte between the two letters kept. -/
theorem GetUserNameResponse_decode_trims_both_ends_witness :
    (∃ (c : Byte) (name : List Byte) (i j : Nat),
      GetUserNameResponse.UnmarshalBinary ⟨0, []⟩
          (0x00 :: 0x00 :: 0x41 :: 0x00 :: 0x42 :: List.replicate 12 0x00) =
        .ok (⟨c, name⟩, none) ∧
      (0x00 :: 0x00 :: 0x41 :: 0x00 :: 0x42 :: List.replicate 12 0x00 : List Byte) =
        c :: (List.replicate i 0 ++ name ++ List.replicate j 0) ∧
      name.head? ≠ some 0 ∧ name.getLast? ≠ some 0) ∧
    GetUserNameResponse.UnmarshalBinary ⟨0, []⟩
        (0x00 :: 0x00 :: 0x41 :: 0x00 :: 0x42 :: List.replicate 12 0x00) =
      .ok (⟨0x00, [0x41, 0x00, 0x42]⟩, none) :=
  ⟨GetUserNameResponse_decode_trims_both_ends ⟨0, []⟩
      (0x00 :: 0x00 :: 0x41 :: 0x00 :: 0x42 :: List.replicate 12 0x00) (by decide),
    by decide⟩

/-- C13 as stated fails at the user name of 17 bytes `A`: both encoders return a nil
error together with 17 bytes that hold the first 16 bytes of the name. -/
theorem MarshalBinary_long_name_counterexample :
    SetUserNameRequest.MarshalBinary ⟨0x01, List.replicate 17 0x41⟩ =
      (0x01 :: List.replicate 16 0x41, none) ∧
    GetUserNameResponse.MarshalBinary ⟨0x00, List.replicate 17 0x41⟩ =
      (0x00 :: List.replicate 16 0x41, none) := by
  decide

/-- C13 amended: for every user name longer than 16 bytes, `SetUserNameRequest` and
`GetUserNameResponse` encoding both return a nil error and 17 bytes: the user id (or the
completion code) followed by the first 16 bytes of the name; the rest of the name is
dropped. -/
theorem MarshalBinary_long_name_truncates (id : Byte) (c : CompletionCode) (u : List Byte)
    (hlen : MaxUsernameLen < u.length) :
    SetUserNameRequest.MarshalBinary ⟨id, u⟩ = (id :: u.take 16, none) ∧
    GetUserNameResponse.MarshalBinary ⟨c, u⟩ = (c :: u.take 16, none) ∧
    (id :: u.take 16).length = 17 ∧ (c :: u.take 16).length = 17 ∧ u.take 16 ≠ u := by
  have hl : 16 < u.length := hlen
  have hz : 16 - u.length = 0 := by omega
  refine ⟨?_, ?_, ?_, ?_, ?_⟩
  · rw [SetUserNameRequest_MarshalBinary_eq]
    simp [hz]
  · rw [GetUserNameResponse_MarshalBinary_eq]
    simp [hz]
  · simp; omega
  · simp; omega
  · intro h
    have := congrArg List.length h
    simp at this
    omega

/-- C13 amended, at the user name of 17 bytes `A`. -/
theorem MarshalBinary_long_name_truncates_witness :
    SetUserNameRequest.MarshalBinary ⟨0x01, List.replicate 17 0x41⟩ =
      (0x01 :: (List.replicate 17 0x41).take 16, none) ∧
    GetUserNameResponse.MarshalBinary ⟨0x00, List.replicate 17 0x41⟩ =
      (0x00 :: (List.replicate 17 0x41).take 16, none) ∧
    ((0x01 : Byte) :: (List.replicate 17 (0x41 : Byte)).take 16).length = 17 ∧
    ((0x00 : Byte) :: (List.replicate 17 (0x41 : Byte)).take 16).length = 17 ∧
    (List.replicate 17 (0x41 : Byte)).take 16 ≠ List.replicate 17 0x41 :=
  MarshalBinary_long_name_truncates 0x01 0x00 (List.replicate 17 0x41) (by decide)

/-! ## Failure leaves the receiver alone; encoding is total -/

/-- C14: for each of the four decoders, every receiver `r` and every buffer `b`: when
the call returns an error, the receiver after the call is `r`, every field unchanged. -/
theorem UnmarshalBinary_error_keeps_receiver :
    (∀ (r r2 : SetUserPassRequest) (b : List Byte) (e : Error),
      SetUserPassRequest.UnmarshalBinary r b = .ok (r2, some e) → r2 = r) ∧
    (∀ (r r2 : EnableUserRequest) (b : List Byte) (e : Error),
      EnableUserRequest.UnmarshalBinary r b = .ok (r2, some e) → r2 = r) ∧
    (∀ (r r2 : GetUserNameResponse) (b : List Byte) (e : Error),
      GetUserNameResponse.UnmarshalBinary r b = .ok (r2, some e) → r2 = r) ∧
    (∀ (r r2 : SetUserNameRequest) (b : List Byte) (e : Error),
      SetUserNameRequest.UnmarshalBinary r b = .ok (r2, some e) → r2 = r) := by
  refine ⟨?_, ?_, ?_, ?_⟩
  · intro r r2 b e h
    unfold SetUserPassRequest.UnmarshalBinary at h
    split at h
    · simp at h; exact h.1.symm
    · split at h
      · simp at h; exact h.1.symm
      · cases hi : index b 0 <;> cases hs : sliceFrom b 2 <;>
          simp [hi, hs, bind, Except.bind] at h
  · intro r r2 b e h
    unfold EnableUserRequest.UnmarshalBinary at h
    split at h
    · simp at h; exact h.1.symm
    · split at h
      · simp at h; exact h.1.symm
      · cases hi : index b 0 <;> simp [hi, bind, Except.bind] at h
  · intro r r2 b e h
    unfold GetUserNameResponse.UnmarshalBinary at h
    split at h
    · simp at h; exact h.1.symm
    · cases hi : index b 0 <;> cases hs : sliceFrom b 1 <;>
        simp [hi, hs, bind, Except.bind] at h
  · intro r r2 b e h
    unfold SetUserNameRequest.UnmarshalBinary at h
    split at h
    · simp at h; exact h.1.symm
    · cases hi : index b 0 <;> cases hs : sliceFrom b 1 <;>
        simp [hi, hs, bind, Except.bind] at h

/-- C14 at one rejected buffer per decoder (17 bytes, 2 bytes, 16 bytes, 18 bytes), each
with a receiver that holds values: the call returns the error and the receiver stays. -/
theorem UnmarshalBinary_error_keeps_receiver_witness :
    (SetUserPassRequest.UnmarshalBinary ⟨0x07, [0x70]⟩ (List.replicate 17 0x41) =
        .ok (⟨0x07, [0x70]⟩, some .ErrShortPacket) ∧
      ∀ r2 e, SetUserPassRequest.UnmarshalBinary ⟨0x07, [0x70]⟩ (List.replicate 17 0x41) =
        .ok (r2, some e) → r2 = ⟨0x07, [0x70]⟩) ∧
    (EnableUserRequest.UnmarshalBinary ⟨0x07⟩ [0x01, 0x01] = .ok (⟨0x07⟩, some .ErrLongPacket) ∧
      ∀ r2 e, EnableUserRequest.UnmarshalBinary ⟨0x07⟩ [0x01, 0x01] = .ok (r2, some e) →
        r2 = ⟨0x07⟩) ∧
    (GetUserNameResponse.UnmarshalBinary ⟨0x07, testName⟩ (List.replicate 16 0x41) =
        .ok (⟨0x07, testName⟩, some .ErrShortPacket) ∧
      ∀ r2 e, GetUserNameResponse.UnmarshalBinary ⟨0x07, testName⟩ (List.replicate 16 0x41) =
        .ok (r2, some e) → r2 = ⟨0x07, testName⟩) ∧
    (SetUserNameRequest.UnmarshalBinary ⟨0x07, testName⟩ (List.replicate 18 0x41) =
        .ok (⟨0x07, testName⟩, some .ErrLongPacket) ∧
      ∀ r2 e, SetUserNameRequest.UnmarshalBinary ⟨0x07, testName⟩ (List.replicate 18 0x41) =
        .ok (r2, some e) → r2 = ⟨0x07, testName⟩) :=
  ⟨⟨by decide, fun r2 e h => UnmarshalBinary_error_keeps_receiver.1 _ r2 _ e h⟩,
    ⟨by decide, fun r2 e h => UnmarshalBinary_error_keeps_receiver.2.1 _ r2 _ e h⟩,
    ⟨by decide, fun r2 e h => UnmarshalBinary_error_keeps_receiver.2.2.1 _ r2 _ e h⟩,
    ⟨by decide, fun r2 e h => UnmarshalBinary_error_keeps_receiver.2.2.2 _ r2 _ e h⟩⟩

/-- C15: for every field value (any user id, any completion code, a password or user
name of any length), each `MarshalBinary` returns a nil error and a byte sequence of
exactly 18 bytes (`SetUserPassRequest`), 2 bytes (`EnableUserRequest`), 17 bytes
(`GetUserNameResponse`) and 17 bytes (`SetUserNameRequest`). -/
theorem MarshalBinary_total_fixed_length (p : SetUserPassRequest) (e : EnableUserRequest)
    (g : GetUserNameResponse) (s : SetUserNameRequest) :
    (p.MarshalBinary.2 = none ∧ p.MarshalBinary.1.length = 18) ∧
    (e.MarshalBinary.2 = none ∧ e.MarshalBinary.1.length = 2) ∧
    (g.MarshalBinary.2 = none ∧ g.MarshalBinary.1.length = 17) ∧
    (s.MarshalBinary.2 = none ∧ s.MarshalBinary.1.length = 17) := by
  rw [SetUserPassRequest_MarshalBinary_eq, EnableUserRequest_MarshalBinary_eq,
    GetUserNameResponse_MarshalBinary_eq, SetUserNameRequest_MarshalBinary_eq]
  simp
  omega

/-- C15 at an empty password, an empty user name and a user name of 40 bytes. -/
theorem MarshalBinary_total_fixed_length_witness :
    ((SetUserPassRequest.MarshalBinary ⟨0x01, []⟩).2 = none ∧
      (SetUserPassRequest.MarshalBinary ⟨0x01, []⟩).1.length = 18) ∧
    ((EnableUserRequest.MarshalBinary ⟨0xFF⟩).2 = none ∧
      (EnableUserRequest.MarshalBinary ⟨0xFF⟩).1.length = 2) ∧
    ((GetUserNameResponse.MarshalBinary ⟨0xC1, []⟩).2 = none ∧
      (GetUserNameResponse.MarshalBinary ⟨0xC1, []⟩).1.length = 17) ∧
    ((SetUserNameRequest.MarshalBinary ⟨0x01, List.replicate 40 0x41⟩).2 = none ∧
      (SetUserNameRequest.MarshalBinary ⟨0x01, List.replicate 40 0x41⟩).1.length = 17) :=
  MarshalBinary_total_fixed_length ⟨0x01, []⟩ ⟨0xFF⟩ ⟨0xC1, []⟩ ⟨0x01, List.replicate 40 0x41⟩

/-! ## Wire layouts -/

theorem padded_field_index (x : Byte) (u : List Byte) (n : Nat) :
    (x :: (u ++ List.replicate (n - u.length) 0))[0]? = some x ∧
    (∀ i, i < u.length → (x :: (u ++ List.replicate (n - u.length) 0))[1 + i]? = u[i]?) ∧
    (∀ i, u.length + 1 ≤ i → i ≤ n →
      (x :: (u ++ List.replicate (n - u.length) 0))[i]? = some 0) := by
  refine ⟨by simp, ?_, ?_⟩
  · intro i hi
    rw [Nat.add_comm 1 i, List.getElem?_cons_succ, List.getElem?_append_left hi]
  · intro i h1 h2
    obtain ⟨k, rfl⟩ : ∃ k, i = k + 1 := ⟨i - 1, by omega⟩
    rw [List.getElem?_cons_succ, List.getElem?_append_right (by omega),
      List.getElem?_replicate]
    simp
    omega

/-- C16: for every user id and every password of at most 16 bytes, the bytes
`SetUserPassRequest.MarshalBinary` produces are the user id, the marker 0x02, the
password and zero bytes up to 18 bytes in all: offset 0 holds the user id, offset 1
holds 0x02, offset `2 + i` holds byte `i` of the password, and every offset from
`2 + len(Pass)` to 17 holds 0x00. -/
theorem SetUserPassRequest_wire_layout (id : Byte) (pass : List Byte)
    (hlen : pass.length ≤ 16) :
    (SetUserPassRequest.MarshalBinary ⟨id, pass⟩).1 =
      id :: 0x02 :: (pass ++ List.replicate (16 - pass.length) 0) ∧
    (SetUserPassRequest.MarshalBinary ⟨id, pass⟩).1.length = 18 ∧
    (SetUserPassRequest.MarshalBinary ⟨id, pass⟩).1[0]? = some id ∧
    (SetUserPassRequest.MarshalBinary ⟨id, pass⟩).1[1]? = some 0x02 ∧
    (∀ i, i < pass.length →
      (SetUserPassRequest.MarshalBinary ⟨id, pass⟩).1[2 + i]? = pass[i]?) ∧
    (∀ i, 2 + pass.length ≤ i → i < 18 →
      (SetUserPassRequest.MarshalBinary ⟨id, pass⟩).1[i]? = some 0x00) := by
  have hfield := padded_field_index 0x02 pass 16
  rw [SetUserPassRequest_MarshalBinary_eq]
  simp only [List.take_of_length_le hlen]
  refine ⟨trivial, by simp; omega, by simp, by simp, ?_, ?_⟩
  · intro i hi
    have h2 : 2 + i = (1 + i) + 1 := by omega
    rw [h2, List.getElem?_cons_succ]
    exact hfield.2.1 i hi
  · intro i h1 h2
    obtain ⟨k, rfl⟩ : ∃ k, i = k + 1 := ⟨i - 1, by omega⟩
    rw [List.getElem?_cons_succ]
    exact hfield.2.2 k (by omega) (by omega)

/-- C16 at user id 1 and the four-byte password `test`. -/
theorem SetUserPassRequest_wire_layout_witness :
    (SetUserPassRequest.MarshalBinary ⟨0x01, testName⟩).1 =
      [0x01, 0x02, 0x74, 0x65, 0x73, 0x74, 0, 0, 0, 0, 0, 0, 0, 0, 0, 0, 0, 0] :=
  (SetUserPassRequest_wire_layout 0x01 testName (by decide)).1.trans (by decide)

/-- C17: for every user name `u` of at most 16 bytes, `SetUserNameRequest.MarshalBinary`
(byte 0 the user id) and `GetUserNameResponse.MarshalBinary` (byte 0 the completion
code) both produce byte 0, then `u`, then zero bytes up to 17 bytes in all: offset
`1 + i` holds byte `i` of `u` and every offset from `len(u) + 1` to 16 holds 0x00. -/
theorem username_field_layout (id : Byte) (c : CompletionCode) (u : List Byte)
    (hlen : u.length ≤ MaxUsernameLen) :
    ((SetUserNameRequest.MarshalBinary ⟨id, u⟩).1 =
        id :: (u ++ List.replicate (16 - u.length) 0) ∧
      (SetUserNameRequest.MarshalBinary ⟨id, u⟩).1[0]? = some id ∧
      (∀ i, i < u.length → (SetUserNameRequest.MarshalBinary ⟨id, u⟩).1[1 + i]? = u[i]?) ∧
      (∀ i, u.length + 1 ≤ i → i ≤ 16 →
        (SetUserNameRequest.MarshalBinary ⟨id, u⟩).1[i]? = some 0x00)) ∧
    ((GetUserNameResponse.MarshalBinary ⟨c, u⟩).1 =
        c :: (u ++ List.replicate (16 - u.length) 0) ∧
      (GetUserNameResponse.MarshalBinary ⟨c, u⟩).1[0]? = some c ∧
      (∀ i, i < u.length → (GetUserNameResponse.MarshalBinary ⟨c, u⟩).1[1 + i]? = u[i]?) ∧
      (∀ i, u.length + 1 ≤ i → i ≤ 16 →
        (GetUserNameResponse.MarshalBinary ⟨c, u⟩).1[i]? = some 0x00)) := by
  have hl : u.length ≤ 16 := hlen
  rw [SetUserNameRequest_MarshalBinary_eq, GetUserNameResponse_MarshalBinary_eq]
  simp only [List.take_of_length_le hl]
  exact ⟨⟨trivial, padded_field_index id u 16⟩, ⟨trivial, padded_field_index c u 16⟩⟩

/-- C17 at the user name `test`, with user id 1 and completion code 0. -/
theorem username_field_layout_witness :
    (SetUserNameRequest.MarshalBinary ⟨0x01, testName⟩).1 =
      [0x01, 0x74, 0x65, 0x73, 0x74, 0, 0, 0, 0, 0, 0, 0, 0, 0, 0, 0, 0] ∧
    (GetUserNameResponse.MarshalBinary ⟨0x00, testName⟩).1 =
      [0x00, 0x74, 0x65, 0x73, 0x74, 0, 0, 0, 0, 0, 0, 0, 0, 0, 0, 0, 0] :=
  ⟨(username_field_layout 0x01 0x00 testName (by decide)).1.1.trans (by decide),
    (username_field_layout 0x01 0x00 testName (by decide)).2.1.trans (by decide)⟩

/-- C18: for every user id, `EnableUserRequest.MarshalBinary` returns exactly the two
bytes user id, 0x01, with a nil error. -/
theorem EnableUserRequest_wire_layout (id : Byte) :
    EnableUserRequest.MarshalBinary ⟨id⟩ = ([id, 0x01], none) :=
  EnableUserRequest_MarshalBinary_eq ⟨id⟩

/-- C18 at user id 0x05. -/
theorem EnableUserRequest_wire_layout_witness :
    EnableUserRequest.MarshalBinary ⟨0x05⟩ = ([0x05, 0x01], none) :=
  EnableUserRequest_wire_layout 0x05

/-! ## Totality of `SetUserNameRequest` decoding; password truncation -/

/-- C19, the code at every buffer: `SetUserNameRequest` decoding panics exactly on the
empty buffer, where `buf[0]` is index 0 of a buffer of length 0; on every other buffer
it returns. -/
theorem SetUserNameRequest_decode_panics_iff_empty (r0 : SetUserNameRequest)
    (b : List Byte) :
    SetUserNameRequest.UnmarshalBinary r0 [] = .error (.indexOutOfRange 0 0) ∧
    ((∃ p : Panic, SetUserNameRequest.UnmarshalBinary r0 b = .error p) ↔ b = []) := by
  have hnil : SetUserNameRequest.UnmarshalBinary r0 [] = .error (.indexOutOfRange 0 0) := by
    simp [SetUserNameRequest.UnmarshalBinary, MaxUsernameLen, index, bind, Except.bind]
  refine ⟨hnil, ?_, ?_⟩
  · rintro ⟨p, hp⟩
    cases b with
    | nil => rfl
    | cons x xs =>
      unfold SetUserNameRequest.UnmarshalBinary at hp
      split at hp
      · simp at hp
      · simp [index, sliceFrom, bind, Except.bind] at hp
  · rintro rfl
    exact ⟨_, hnil⟩

/-- C20: for every user id and every password longer than 16 bytes,
`SetUserPassRequest.MarshalBinary` returns a nil error and 18 bytes whose offsets 2 to 17
are the first 16 bytes of the password; every other password (of any length above 16)
with the same first 16 bytes encodes to the same bytes, and decoding the encoding returns
a nil error with the same user id and only those 16 bytes as the password. -/
theorem SetUserPassRequest_truncates_password (r0 : SetUserPassRequest) (id : Byte)
    (pass : List Byte) (hlen : 16 < pass.length) :
    SetUserPassRequest.MarshalBinary ⟨id, pass⟩ = (id :: 0x02 :: pass.take 16, none) ∧
    (SetUserPassRequest.MarshalBinary ⟨id, pass⟩).1.drop 2 = pass.take 16 ∧
    (pass.take 16).length = 16 ∧
    (∀ pass2 : List Byte, 16 < pass2.length → pass2.take 16 = pass.take 16 →
      SetUserPassRequest.MarshalBinary ⟨id, pass2⟩ = SetUserPassRequest.MarshalBinary ⟨id, pass⟩) ∧
    SetUserPassRequest.UnmarshalBinary r0 (SetUserPassRequest.MarshalBinary ⟨id, pass⟩).1 =
      .ok (⟨id, pass.take 16⟩, none) := by
  have henc : ∀ q : List Byte, 16 < q.length →
      SetUserPassRequest.MarshalBinary ⟨id, q⟩ = (id :: 0x02 :: q.take 16, none) := by
    intro q hq
    have hz : 16 - q.length = 0 := by omega
    rw [SetUserPassRequest_MarshalBinary_eq]
    simp [hz]
  have h16 : (pass.take 16).length = 16 := by
    simp; omega
  refine ⟨henc pass hlen, ?_, h16, ?_, ?_⟩
  · rw [henc pass hlen]
    rfl
  · intro pass2 h2 heq
    rw [henc pass hlen, henc pass2 h2, heq]
  · rw [henc pass hlen]
    exact SetUserPassRequest_UnmarshalBinary_cons r0 id 0x02 (pass.take 16) h16

/-- C20 at the 17-byte password of 16 bytes `A` and one byte `B`: the encoding equals that
of the 18-byte password with the same first 16 bytes, and decoding it gives 16 bytes `A`. -/
theorem SetUserPassRequest_truncates_password_witness :
    SetUserPassRequest.MarshalBinary ⟨0x01, List.replicate 16 0x41 ++ [0x42]⟩ =
      (0x01 :: 0x02 :: List.replicate 16 0x41, none) ∧
    SetUserPassRequest.MarshalBinary ⟨0x01, List.replicate 16 0x41 ++ [0x43, 0x44]⟩ =
      SetUserPassRequest.MarshalBinary ⟨0x01, List.replicate 16 0x41 ++ [0x42]⟩ ∧
    SetUserPassRequest.UnmarshalBinary ⟨0, []⟩
        (SetUserPassRequest.MarshalBinary ⟨0x01, List.replicate 16 0x41 ++ [0x42]⟩).1 =
      .ok (⟨0x01, List.replicate 16 0x41⟩, none) :=
  ⟨(SetUserPassRequest_truncates_password ⟨0, []⟩ 0x01 (List.replicate 16 0x41 ++ [0x42])
      (by decide)).1.trans (by decide),
    (SetUserPassRequest_truncates_password ⟨0, []⟩ 0x01 (List.replicate 16 0x41 ++ [0x42])
      (by decide)).2.2.2.1 (List.replicate 16 0x41 ++ [0x43, 0x44]) (by decide) (by decide),
    (SetUserPassRequest_truncates_password ⟨0, []⟩ 0x01 (List.replicate 16 0x41 ++ [0x42])
      (by decide)).2.2.2.2.trans (by decide)⟩

end ipmi
